import Mathlib

/-!
# Victim (AprilTag) detection node: detection memory and event routing

A shallow embedding of `src/task3_opencv/src/april_tag_detection.cpp`.

* `detectedTags`, `updateDetected`, `resetTags`: the fixed-size memory of tag
  identifiers already reported.
* `Demo.print_detection`, `Demo.processImage`: the per-frame handler.  The tag
  detector, the transform listener and the publishers are external; the marker
  list of a frame and the transform lookup are inputs, and everything the
  handler prints, logs or publishes is returned as a list of `Action`s in the
  order the program performs them.
* `reset`: the reset service routine.

C++ `int` identifiers are modelled by `Int` (the code only compares and copies
them).  `double` coordinates are modelled by `ℚ`: the code only copies them and
assigns the literals `0`, `0.2` and `1.0`.
-/

namespace VictimDetection

/-! ## Detection memory -/

/-- The constant `#define NUM_VICTIMS 5`. -/
abbrev NUM_VICTIMS : Nat := 5

/-- The global `int detectedTags[NUM_VICTIMS]`: exactly `NUM_VICTIMS` integers. -/
abbrev Memory := { l : List Int // l.length = NUM_VICTIMS }

namespace Memory

/-- The array read `detectedTags[i]`. -/
def read (m : Memory) (i : Fin NUM_VICTIMS) : Int :=
  m.val.get (i.cast m.property.symm)

/-- The array write `detectedTags[i] = v`. -/
def write (m : Memory) (i : Fin NUM_VICTIMS) (v : Int) : Memory :=
  ⟨m.val.set i.val v, by rw [List.length_set]; exact m.property⟩

/-- The entries of the memory other than the empty-slot value `-1`, in slot order. -/
def entries (m : Memory) : List Int :=
  m.val.filter (fun v => v ≠ -1)

end Memory

/-- The function `bool updateDetected(int id)`: the returned flag and the memory
afterwards.  The first loop returns `false` as soon as a slot equals `id`; the
second loop writes `id` into the first slot that equals `-1` and returns `true`;
when neither loop returns, the result is `false`. -/
def updateDetected (m : Memory) (id : Int) : Bool × Memory :=
  if (List.finRange NUM_VICTIMS).any (fun i => m.read i == id) then (false, m)
  else
    match (List.finRange NUM_VICTIMS).find? (fun i => m.read i == -1) with
    | some i => (true, m.write i id)
    | none => (false, m)

/-- The function `void resetTags(void)`: every slot is set to `-1`, lowest index first. -/
def resetTags (m : Memory) : Memory :=
  (List.finRange NUM_VICTIMS).foldl (fun acc i => acc.write i (-1)) m

/-- A call on the detection memory: `updateDetected(id)` or `resetTags()`. -/
inductive Call where
  | update (id : Int)
  | clear
deriving DecidableEq, Repr

/-- The memory after a sequence of calls, performed from left to right. -/
def runCalls (m : Memory) : List Call → Memory
  | [] => m
  | Call.update id :: cs => runCalls (updateDetected m id).2 cs
  | Call.clear :: cs => runCalls (resetTags m) cs

/-- The memory after the calls `updateDetected(id)` for `id` in `ids`, from left to right. -/
def afterUpdates (m : Memory) : List Int → Memory
  | [] => m
  | id :: ids => afterUpdates (updateDetected m id).2 ids

/-- The values returned by the calls `updateDetected(id)` for `id` in `ids`, from left to right. -/
def returnsOf (m : Memory) : List Int → List Bool
  | [] => []
  | id :: ids => (updateDetected m id).1 :: returnsOf (updateDetected m id).2 ids

/-! ## Messages and external collaborators -/

/-- The message `geometry_msgs::Point`. -/
structure Point where
  x : ℚ
  y : ℚ
  z : ℚ
deriving DecidableEq, Repr

/-- The message `geometry_msgs::PointStamped`: frame name and point (the time stamp is left out). -/
structure PointStamped where
  frame_id : String
  point : Point
deriving DecidableEq, Repr

/-- A default-constructed `geometry_msgs::PointStamped`: empty frame name, all
coordinates zero (the value `victim_point` has before `transformPoint` assigns it). -/
def PointStamped.init : PointStamped := ⟨"", ⟨0, 0, 0⟩⟩

/-- The message `geometry_msgs::PoseStamped` as far as `print_detection` fills
it: `header.frame_id` and `pose.position`. -/
structure PoseStamped where
  frame_id : String
  position : Point
deriving DecidableEq, Repr

/-- The message `geometry_msgs::Quaternion`. -/
structure Quaternion where
  x : ℚ
  y : ℚ
  z : ℚ
  w : ℚ
deriving DecidableEq, Repr

/-- The message `geometry_msgs::Vector3`. -/
structure Vector3 where
  x : ℚ
  y : ℚ
  z : ℚ
deriving DecidableEq, Repr

/-- The message `std_msgs::ColorRGBA`. -/
structure ColorRGBA where
  r : ℚ
  g : ℚ
  b : ℚ
  a : ℚ
deriving DecidableEq, Repr

/-- The marker shapes named in the source (`visualization_msgs::Marker::CYLINDER` is the one used). -/
inductive MarkerType where
  | CUBE
  | SPHERE
  | ARROW
  | CYLINDER
deriving DecidableEq, Repr

/-- The marker actions named in the source (`visualization_msgs::Marker::ADD` is the one used). -/
inductive MarkerAction where
  | ADD
  | DELETE
  | DELETEALL
deriving DecidableEq, Repr

/-- The message `visualization_msgs::Marker` as far as `print_detection` fills
it (`header.stamp = ros::Time::now()` is left out; `lifetime` is in seconds,
`ros::Duration()` being `0`). -/
structure Marker where
  frame_id : String
  ns : String
  id : Int
  type : MarkerType
  action : MarkerAction
  position : Point
  orientation : Quaternion
  scale : Vector3
  color : ColorRGBA
  lifetime : ℚ
deriving DecidableEq, Repr

/-- What the detector reports for one tag, as far as the handler reads it:
`id`, `hammingDistance`, and the translation that
`getRelativeTranslationRotation(m_tagSize, m_fx, m_fy, m_px, m_py, ...)`
returns for it. -/
structure TagDetection where
  id : Int
  hammingDistance : Int
  translation : Point
deriving DecidableEq, Repr

/-- The call `plistener->transformPoint(target_frame, stamped_in, stamped_out)`:
`some out` when it returns, `none` when it throws `tf::TransformException`. -/
abbrev TransformPoint := String → PointStamped → Option PointStamped

/-- What the node prints, logs and publishes. -/
inductive Action where
  /-- Output `cout << "  Id: " << id << " (Hamming: " << hammingDistance << ")"`. -/
  | coutId (id : Int) (hammingDistance : Int)
  /-- Log `ROS_INFO("camera_optical_frame: ... -----> map: ...")` after a transform that returned. -/
  | infoTransformed (tag_point : Point) (victim_point : Point)
  /-- Log `ROS_ERROR("Received an exception trying to transform a point ...")`. -/
  | errorTransform
  /-- Call `object_location_pub.publish(location)`: a located-object event. -/
  | publishLocation (location : PoseStamped)
  /-- Call `marker_pub.publish(*pvicmarker)`: a visualization event. -/
  | publishMarker (marker : Marker)
  /-- Log `ROS_INFO("New victim detected, id: %d", id)`. -/
  | infoNewVictim (id : Int)
  /-- Log `ROS_INFO("No new victim detected, id: %d", id)`. -/
  | infoNoNewVictim (id : Int)
  /-- Log `ROS_INFO("Reset request received: %d", (int)req.resetFlag)`. -/
  | infoResetRequest (flag : Nat)
  /-- Log `ROS_INFO("Reset confirmed: %d", (int)res.resetDone)`. -/
  | infoResetConfirmed (done : Nat)
deriving DecidableEq, Repr

namespace Action

/-- The located-object events among the actions, in order. -/
def locations : List Action → List PoseStamped
  | [] => []
  | publishLocation l :: as => l :: locations as
  | _ :: as => locations as

/-- The visualization events among the actions, in order. -/
def markers : List Action → List Marker
  | [] => []
  | publishMarker k :: as => k :: markers as
  | _ :: as => markers as

end Action

/-! ## The frame handler -/

namespace Demo

/-- The method `Demo::print_detection`.  The Euler angles it computes are never
used and are left out.  `victim_point` is default-constructed and assigned only
by a `transformPoint` call that returns; the code after the `try`/`catch` block
runs in both cases. -/
def print_detection (transformPoint : TransformPoint) (detection : TagDetection) :
    List Action :=
  let tag_point : PointStamped := ⟨"base_footprint", detection.translation⟩
  let tried : PointStamped × List Action :=
    match transformPoint "map" tag_point with
    | some out => (out, [Action.infoTransformed tag_point.point out.point])
    | none => (PointStamped.init, [Action.errorTransform])
  let victim_point := tried.1
  let id_string : String := toString detection.id
  let location : PoseStamped := ⟨id_string, victim_point.point⟩
  let vicmarker : Marker :=
    { frame_id := "/map"
      ns := "basic_shapes"
      id := detection.id
      type := MarkerType.CYLINDER
      action := MarkerAction.ADD
      position := ⟨location.position.x, location.position.y, 0⟩
      orientation := ⟨0, 0, 0, 1⟩
      scale := ⟨0.2, 0.2, 0.2⟩
      color := ⟨0, 1, 0, 1⟩
      lifetime := 0 }
  [Action.coutId detection.id detection.hammingDistance] ++ tried.2 ++
    [Action.publishLocation location, Action.publishMarker vicmarker]

/-- The loop `for (int i=0; i<detections.size(); i++)` of `Demo::processImage`
that reports the detections: the actions performed and the memory afterwards
(drawing and timing output are left out). -/
def processImage (transformPoint : TransformPoint) :
    List TagDetection → Memory → List Action × Memory
  | [], m => ([], m)
  | detection :: rest, m =>
    let id := detection.id
    let r := updateDetected m id
    let here :=
      if r.1 then print_detection transformPoint detection ++ [Action.infoNewVictim id]
      else [Action.infoNoNewVictim id]
    let later := processImage transformPoint rest r.2
    (here ++ later.1, later.2)

end Demo

/-! ## The reset service -/

/-- Modelled from the spec: the request of the service type
`task3_opencv::ResetDetection`, whose generated header is not among the sources:
a boolean reset flag, `resetFlag`. -/
structure ResetRequest where
  resetFlag : Bool
deriving DecidableEq, Repr

/-- Modelled from the spec: the response of the service type
`task3_opencv::ResetDetection`, whose generated header is not among the sources:
a boolean acknowledgement, `resetDone`. -/
structure ResetResponse where
  resetDone : Bool
deriving DecidableEq, Repr

/-- The result of one call of the service routine. -/
structure ResetResult where
  ret : Bool
  res : ResetResponse
  memory : Memory
  log : List Action

/-- The service routine `bool reset(Request &req, Response &res)`. -/
def reset (req : ResetRequest) (res : ResetResponse) (m : Memory) : ResetResult :=
  if req.resetFlag.toNat == 1 then
    { ret := true
      res := { res with resetDone := true }
      memory := resetTags m
      log := [Action.infoResetRequest req.resetFlag.toNat, Action.infoResetConfirmed 1] }
  else
    { ret := true
      res := res
      memory := m
      log := [Action.infoResetRequest req.resetFlag.toNat] }

/-! ## The operations as the specification words them -/

namespace Spec

/-- The operation `seen(id)`: true iff `id` already occupies a slot. -/
def seen (m : Memory) (id : Int) : Bool :=
  decide (id ∈ m.val)

/-- The first empty slot: the lowest index whose slot holds `-1`, if there is one. -/
def firstEmpty (m : Memory) : Option (Fin NUM_VICTIMS) :=
  if h : m.val.indexOf (-1) < NUM_VICTIMS then some ⟨m.val.indexOf (-1), h⟩ else none

/-- The operation `record(id)`: if `seen(id)`, return false (no change); else, if
an empty slot exists, occupy the first empty slot with `id` and return true; if
no empty slot exists, return false (no change). -/
def record (m : Memory) (id : Int) : Bool × Memory :=
  if seen m id then (false, m)
  else
    match firstEmpty m with
    | some k => (true, m.write k id)
    | none => (false, m)

/-- The distinct values of a list, in the order of their first occurrence. -/
def firstOccurrences : List Int → List Int
  | [] => []
  | x :: xs => x :: (firstOccurrences xs).filter (fun y => y ≠ x)

/-- The first `NUM_VICTIMS` distinct identifiers of `ids` other than `-1`, in the
order of their first occurrence. -/
def firstDistinct (ids : List Int) : List Int :=
  (firstOccurrences (ids.filter (fun v => v ≠ -1))).take NUM_VICTIMS

/-- The slots that hold the identifiers `l` from slot `0` on and `-1` in every remaining slot. -/
def layout (l : List Int) : List Int :=
  l ++ List.replicate (NUM_VICTIMS - l.length) (-1)

/-- The visualization event of the specification: identifier, position, and the
fixed style (cylinder, scale 0.2 per axis, solid green, full opacity, no expiry). -/
def visualization (id : Int) (position : Point) : Marker :=
  { frame_id := "/map"
    ns := "basic_shapes"
    id := id
    type := MarkerType.CYLINDER
    action := MarkerAction.ADD
    position := position
    orientation := ⟨0, 0, 0, 1⟩
    scale := ⟨0.2, 0.2, 0.2⟩
    color := ⟨0, 1, 0, 1⟩
    lifetime := 0 }

end Spec

/-! ## Auxiliary notions used in the proofs -/

/-- The slots of `m` are the identifiers `pre`, none of them `-1`, followed by empty slots. -/
def Shape (m : Memory) (pre : List Int) : Prop :=
  m.val = Spec.layout pre ∧ pre.length ≤ NUM_VICTIMS ∧ (-1 : Int) ∉ pre

/-- The identifiers held after a call for `x` when `pre` were held before. -/
def next (pre : List Int) (x : Int) : List Int :=
  if x = -1 ∨ x ∈ pre ∨ NUM_VICTIMS ≤ pre.length then pre else pre ++ [x]

instance (m : Memory) (pre : List Int) : Decidable (Shape m pre) := by
  unfold Shape
  infer_instance

/-- The identifiers held after the calls for `ids` when `pre` were held before. -/
def heldAfter (pre ids : List Int) : List Int :=
  (pre ++ (Spec.firstOccurrences (ids.filter (fun v => v ≠ -1))).filter
    (fun y => y ∉ pre)).take NUM_VICTIMS

/-! ## Memories used as examples -/

/-- A memory with two empty slots. -/
def partlyFilled : Memory := ⟨[7, -1, 3, -1, 9], rfl⟩

/-- A memory whose slots all hold distinct identifiers. -/
def saturated : Memory := ⟨[1, 2, 3, 4, 5], rfl⟩

/-! # Theorems -/

/-! ## Detection memory: the two loops -/

theorem Memory.ext_val {m n : Memory} (h : m.val = n.val) : m = n := Subtype.ext h

theorem Memory.read_mem (m : Memory) (i : Fin NUM_VICTIMS) : m.read i ∈ m.val := by
  unfold Memory.read
  exact List.get_mem _ _ _

theorem Memory.exists_read_of_mem (m : Memory) {v : Int} (h : v ∈ m.val) :
    ∃ i, m.read i = v := by
  obtain ⟨n, hn⟩ := List.get_of_mem h
  exact ⟨n.cast m.property, hn⟩

theorem Memory.mem_iff_read (m : Memory) (v : Int) : v ∈ m.val ↔ ∃ i, m.read i = v :=
  ⟨m.exists_read_of_mem, fun ⟨i, hi⟩ => hi ▸ m.read_mem i⟩

theorem Memory.getElem?_val (m : Memory) (i : Fin NUM_VICTIMS) :
    m.val[i.val]? = some (m.read i) := by
  have h : i.val < m.val.length := by rw [m.property]; exact i.isLt
  rw [List.getElem?_eq_getElem h]
  rfl

theorem Memory.val_write (m : Memory) (i : Fin NUM_VICTIMS) (v : Int) :
    (m.write i v).val = m.val.set i.val v := rfl

theorem Memory.read_write_same (m : Memory) (i : Fin NUM_VICTIMS) (v : Int) :
    (m.write i v).read i = v := by
  simp [Memory.read, Memory.write]

theorem Memory.read_write_other (m : Memory) {i j : Fin NUM_VICTIMS} (h : j ≠ i) (v : Int) :
    (m.write i v).read j = m.read j := by
  have h2 : i.val ≠ j.val := fun e => h (Fin.ext e.symm)
  simp [Memory.read, Memory.write, List.getElem_set_ne h2]

/-- The first loop of `updateDetected` finds `id` exactly when `id` is in a slot. -/
theorem seen_iff (m : Memory) (id : Int) :
    (List.finRange NUM_VICTIMS).any (fun i => m.read i == id) = true ↔ id ∈ m.val := by
  rw [List.any_eq_true, Memory.mem_iff_read]
  constructor
  · rintro ⟨i, _, hi⟩
    exact ⟨i, by simpa using hi⟩
  · rintro ⟨i, hi⟩
    exact ⟨i, List.mem_finRange i, by simpa using hi⟩

/-- The second loop of `updateDetected` stops at `k` exactly when `k` is the lowest empty slot. -/
theorem firstEmpty_some_iff (m : Memory) (k : Fin NUM_VICTIMS) :
    (List.finRange NUM_VICTIMS).find? (fun i => m.read i == -1) = some k ↔
      m.read k = -1 ∧ ∀ j, j < k → m.read j ≠ -1 := by
  rw [List.find?_eq_some_iff_getElem]
  constructor
  · rintro ⟨hk, n, hn, hnk, hlt⟩
    refine ⟨by simpa using hk, fun j hj => ?_⟩
    rw [List.getElem_finRange] at hnk
    have hjn : j.val < n := by
      have : n = k.val := by rw [← hnk]; rfl
      rw [this]; exact hj
    have := hlt j.val hjn
    rw [List.getElem_finRange] at this
    simpa using this
  · rintro ⟨hk, hlt⟩
    refine ⟨by simpa using hk, k.val, by simp, by simp, fun j hj => ?_⟩
    rw [List.getElem_finRange]
    have := hlt ⟨j, by omega⟩ hj
    simpa using this

theorem firstEmpty_none_iff (m : Memory) :
    (List.finRange NUM_VICTIMS).find? (fun i => m.read i == -1) = none ↔ (-1 : Int) ∉ m.val := by
  rw [List.find?_eq_none, Memory.mem_iff_read]
  constructor
  · rintro h ⟨i, hi⟩
    exact h i (List.mem_finRange i) (by simpa using hi)
  · intro h i _ hi
    exact h ⟨i, by simpa using hi⟩

theorem resetTags_val (m : Memory) : (resetTags m).val = [-1, -1, -1, -1, -1] := by
  obtain ⟨l, h⟩ := m
  match l, h with
  | [a, b, c, d, e], _ => rfl

theorem updateDetected_of_mem (m : Memory) (id : Int) (h : id ∈ m.val) :
    updateDetected m id = (false, m) := by
  unfold updateDetected
  rw [if_pos ((seen_iff m id).2 h)]

theorem updateDetected_of_full (m : Memory) (id : Int) (h : (-1 : Int) ∉ m.val) :
    updateDetected m id = (false, m) := by
  unfold updateDetected
  split
  · rfl
  · rw [(firstEmpty_none_iff m).2 h]

theorem updateDetected_of_fresh (m : Memory) (id : Int) (k : Fin NUM_VICTIMS)
    (hid : id ∉ m.val) (hk : m.read k = -1) (hlt : ∀ j, j < k → m.read j ≠ -1) :
    updateDetected m id = (true, m.write k id) := by
  unfold updateDetected
  rw [if_neg (fun h => hid ((seen_iff m id).1 h)), (firstEmpty_some_iff m k).2 ⟨hk, hlt⟩]

/-- A memory with an empty slot has a lowest empty slot. -/
theorem exists_firstEmpty (m : Memory) (h : (-1 : Int) ∈ m.val) :
    ∃ k, m.read k = -1 ∧ ∀ j, j < k → m.read j ≠ -1 := by
  cases hf : (List.finRange NUM_VICTIMS).find? (fun i => m.read i == -1) with
  | none => exact absurd h ((firstEmpty_none_iff m).1 hf)
  | some k => exact ⟨k, (firstEmpty_some_iff m k).1 hf⟩

theorem not_eq_of_lt_indexOf (a : Int) : ∀ (l : List Int) (j : Nat), j < l.indexOf a →
    ∀ (hl : j < l.length), l[j] ≠ a
  | [], _, _, hl => by simp at hl
  | x :: xs, j, hj, hl => by
    by_cases hx : x = a
    · rw [List.indexOf_cons_eq _ hx] at hj
      omega
    · rw [List.indexOf_cons_ne _ hx] at hj
      cases j with
      | zero => simpa using hx
      | succ n =>
        simp only [List.getElem_cons_succ]
        exact not_eq_of_lt_indexOf a xs n (by omega) (by simpa using hl)

theorem Spec.firstEmpty_some (m : Memory) (k : Fin NUM_VICTIMS) :
    Spec.firstEmpty m = some k → m.read k = -1 ∧ ∀ j, j < k → m.read j ≠ -1 := by
  unfold Spec.firstEmpty
  split
  · rename_i h
    intro hk
    have hk2 : (⟨m.val.indexOf (-1), h⟩ : Fin NUM_VICTIMS) = k := Option.some.inj hk
    subst hk2
    refine ⟨?_, fun j hj => ?_⟩
    · simp only [Memory.read]
      exact List.indexOf_get _
    · simp only [Memory.read]
      exact not_eq_of_lt_indexOf (-1) m.val j.val hj _
  · intro hk
    cases hk

theorem Spec.firstEmpty_none (m : Memory) :
    Spec.firstEmpty m = none → (-1 : Int) ∉ m.val := by
  unfold Spec.firstEmpty
  split
  · intro hk
    cases hk
  · rename_i h
    intro _ hmem
    have hlt := List.indexOf_lt_length.2 hmem
    rw [m.property] at hlt
    exact h hlt

/-- The code computes the operation `record` of the specification. -/
theorem updateDetected_eq_record (m : Memory) (id : Int) :
    updateDetected m id = Spec.record m id := by
  unfold Spec.record Spec.seen
  by_cases hid : id ∈ m.val
  · rw [updateDetected_of_mem m id hid]
    simp [hid]
  · simp only [hid, decide_False, Bool.false_eq_true, if_false]
    cases hf : Spec.firstEmpty m with
    | none => exact updateDetected_of_full m id (Spec.firstEmpty_none m hf)
    | some k =>
      obtain ⟨hk, hlt⟩ := Spec.firstEmpty_some m k hf
      exact updateDetected_of_fresh m id k hid hk hlt

/-! ## Single calls -/

theorem resetTags_entries (m : Memory) : (resetTags m).entries = [] := by
  unfold Memory.entries
  rw [resetTags_val]
  rfl

/-- A call that returns `false` leaves the memory as it was. -/
theorem updateDetected_snd_of_false (m : Memory) (id : Int)
    (h : (updateDetected m id).1 = false) : (updateDetected m id).2 = m := by
  by_cases hid : id ∈ m.val
  · rw [updateDetected_of_mem m id hid]
  · by_cases he : (-1 : Int) ∈ m.val
    · obtain ⟨k, hk, hlt⟩ := exists_firstEmpty m he
      rw [updateDetected_of_fresh m id k hid hk hlt] at h
      cases h
    · rw [updateDetected_of_full m id he]

/-- A call that returns `true` was for an identifier other than `-1` that was in no slot. -/
theorem updateDetected_true_iff (m : Memory) (id : Int) :
    (updateDetected m id).1 = true ↔ id ∉ m.val ∧ (-1 : Int) ∈ m.val := by
  by_cases hid : id ∈ m.val
  · rw [updateDetected_of_mem m id hid]
    simp [hid]
  · by_cases he : (-1 : Int) ∈ m.val
    · obtain ⟨k, hk, hlt⟩ := exists_firstEmpty m he
      rw [updateDetected_of_fresh m id k hid hk hlt]
      simp [hid, he]
    · rw [updateDetected_of_full m id he]
      simp [he]

/-- The identifier `-1` is never recorded. -/
theorem updateDetected_sentinel (m : Memory) : updateDetected m (-1) = (false, m) := by
  by_cases he : (-1 : Int) ∈ m.val
  · exact updateDetected_of_mem m (-1) he
  · exact updateDetected_of_full m (-1) he

theorem mem_set_of_ne (l : List Int) (k : Nat) (hk : k < l.length) (v x : Int)
    (hx : x ∈ l) (hne : x ≠ l[k]) : x ∈ l.set k v := by
  obtain ⟨n, hn, rfl⟩ := List.getElem_of_mem hx
  have hkn : k ≠ n := fun e => hne (by subst e; rfl)
  have hn2 : n < (l.set k v).length := by simpa using hn
  have : (l.set k v)[n] = l[n] := List.getElem_set_ne hkn _
  rw [← this]
  exact List.getElem_mem _

/-- An identifier in the memory stays in the memory across a call. -/
theorem mem_updateDetected (m : Memory) (id x : Int) (hx : x ∈ m.val) (hne : x ≠ -1) :
    x ∈ (updateDetected m id).2.val := by
  by_cases hid : id ∈ m.val
  · rwa [updateDetected_of_mem m id hid]
  · by_cases he : (-1 : Int) ∈ m.val
    · obtain ⟨k, hk, hlt⟩ := exists_firstEmpty m he
      rw [updateDetected_of_fresh m id k hid hk hlt]
      have hkl : k.val < m.val.length := by rw [m.property]; exact k.isLt
      refine mem_set_of_ne m.val k.val hkl id x hx ?_
      have : m.val[k.val] = -1 := hk
      rw [this]
      exact hne
    · rwa [updateDetected_of_full m id he]

/-- After a call that returned `true` the identifier is in the memory. -/
theorem mem_of_updateDetected_true (m : Memory) (id : Int)
    (h : (updateDetected m id).1 = true) : id ∈ (updateDetected m id).2.val := by
  obtain ⟨hid, he⟩ := (updateDetected_true_iff m id).1 h
  obtain ⟨k, hk, hlt⟩ := exists_firstEmpty m he
  rw [updateDetected_of_fresh m id k hid hk hlt, Memory.mem_iff_read]
  exact ⟨k, Memory.read_write_same m k id⟩

/-! ## Sequences of calls -/

theorem filter_set_perm (id : Int) (hid : id ≠ -1) :
    ∀ (l : List Int) (k : Nat) (hk : k < l.length), l[k] = -1 →
      ((l.set k id).filter (fun v => v ≠ -1)).Perm (id :: l.filter (fun v => v ≠ -1))
  | [], _, hk, _ => by simp at hk
  | x :: xs, 0, _, h => by
    have hx : x = -1 := by simpa using h
    subst hx
    simp [List.filter_cons, hid]
  | x :: xs, k + 1, hk, h => by
    have ih := filter_set_perm id hid xs k (by simpa using hk) (by simpa using h)
    by_cases hx : x = -1
    · simpa [List.filter_cons, hx] using ih
    · simp only [List.set_cons_succ, List.filter_cons, hx, ne_eq, not_false_eq_true,
        decide_True, if_true]
      exact (List.Perm.cons x ih).trans (List.Perm.swap id x _)

/-- A call keeps the entries of the memory free of duplicates. -/
theorem nodup_entries_updateDetected (m : Memory) (id : Int) (h : m.entries.Nodup) :
    (updateDetected m id).2.entries.Nodup := by
  by_cases hid : id ∈ m.val
  · rwa [updateDetected_of_mem m id hid]
  · by_cases he : (-1 : Int) ∈ m.val
    · obtain ⟨k, hk, hlt⟩ := exists_firstEmpty m he
      rw [updateDetected_of_fresh m id k hid hk hlt]
      have hkl : k.val < m.val.length := by rw [m.property]; exact k.isLt
      have hne : id ≠ -1 := fun e => hid (e ▸ he)
      have hp := filter_set_perm id hne m.val k.val hkl hk
      unfold Memory.entries
      rw [Memory.val_write, hp.nodup_iff, List.nodup_cons]
      exact ⟨fun hmem => hid (List.mem_of_mem_filter hmem), h⟩
    · rwa [updateDetected_of_full m id he]

theorem nodup_entries_runCalls : ∀ (cs : List Call) (m : Memory), m.entries.Nodup →
    (runCalls m cs).entries.Nodup
  | [], _, h => h
  | Call.update id :: cs, m, h =>
    nodup_entries_runCalls cs _ (nodup_entries_updateDetected m id h)
  | Call.clear :: cs, m, _ =>
    nodup_entries_runCalls cs _ (by rw [resetTags_entries]; exact List.nodup_nil)

theorem afterUpdates_append (m : Memory) (xs ys : List Int) :
    afterUpdates m (xs ++ ys) = afterUpdates (afterUpdates m xs) ys := by
  induction xs generalizing m with
  | nil => rfl
  | cons x xs ih => exact ih _

theorem mem_afterUpdates (x : Int) (hne : x ≠ -1) : ∀ (ids : List Int) (m : Memory),
    x ∈ m.val → x ∈ (afterUpdates m ids).val
  | [], _, h => h
  | id :: ids, m, h => mem_afterUpdates x hne ids _ (mem_updateDetected m id x h hne)

/-- Once `id` is in the memory (or is `-1`), no later call for `id` returns `true`. -/
theorem count_true_eq_zero (id : Int) : ∀ (ids : List Int) (m : Memory),
    id ∈ m.val ∨ id = -1 → (ids.zip (returnsOf m ids)).count (id, true) = 0
  | [], _, _ => rfl
  | y :: ids, m, h => by
    have hkeep : id ∈ (updateDetected m y).2.val ∨ id = -1 := by
      by_cases hs : id = -1
      · exact Or.inr hs
      · exact Or.inl (mem_updateDetected m y id (h.resolve_right hs) hs)
    have ih := count_true_eq_zero id ids _ hkeep
    have hhead : (y, (updateDetected m y).1) ≠ (id, true) := by
      intro e
      have hy : y = id := congrArg Prod.fst e
      have ht : (updateDetected m y).1 = true := congrArg Prod.snd e
      subst hy
      rcases h with h | h
      · exact ((updateDetected_true_iff m y).1 ht).1 h
      · rw [h, updateDetected_sentinel] at ht
        cases ht
    simp only [returnsOf, List.zip_cons_cons]
    rw [List.count_cons_of_ne hhead.symm]
    exact ih

/-- In a sequence of calls at most one call for `id` returns `true`. -/
theorem count_true_le_one (id : Int) : ∀ (ids : List Int) (m : Memory),
    (ids.zip (returnsOf m ids)).count (id, true) ≤ 1
  | [], _ => by simp [returnsOf]
  | y :: ids, m => by
    simp only [returnsOf, List.zip_cons_cons]
    by_cases hhead : (y, (updateDetected m y).1) = (id, true)
    · have hy : y = id := congrArg Prod.fst hhead
      have ht : (updateDetected m y).1 = true := congrArg Prod.snd hhead
      subst hy
      have h0 := count_true_eq_zero y ids _ (Or.inl (mem_of_updateDetected_true m y ht))
      rw [hhead, List.count_cons_self, h0]
    · rw [List.count_cons_of_ne (Ne.symm hhead)]
      exact count_true_le_one id ids _

/-! ## The memory as a prefix of identifiers followed by empty slots -/

theorem set_length_append (x : Int) (r : Nat) : ∀ (pre : List Int),
    (pre ++ List.replicate (r + 1) (-1)).set pre.length x = pre ++ x :: List.replicate r (-1)
  | [] => by simp [List.replicate_succ]
  | p :: pre => by simpa using set_length_append x r pre

theorem shape_updateDetected (m : Memory) (pre : List Int) (x : Int) (h : Shape m pre) :
    Shape (updateDetected m x).2 (next pre x) := by
  obtain ⟨hval, hlen, hsent⟩ := h
  have hmem : ∀ y, y ∈ m.val ↔ y ∈ pre ∨ (y = -1 ∧ pre.length < NUM_VICTIMS) := by
    intro y
    rw [hval, Spec.layout, List.mem_append, List.mem_replicate]
    constructor
    · rintro (h | ⟨h1, h2⟩)
      · exact Or.inl h
      · exact Or.inr ⟨h2, by omega⟩
    · rintro (h | ⟨h1, h2⟩)
      · exact Or.inl h
      · exact Or.inr ⟨by omega, h1⟩
  by_cases hx : x ∈ m.val
  · rw [updateDetected_of_mem m x hx]
    have : next pre x = pre := by
      unfold next
      rcases (hmem x).1 hx with h | ⟨h, _⟩
      · simp [h]
      · simp [h]
    rw [this]
    exact ⟨hval, hlen, hsent⟩
  · by_cases he : (-1 : Int) ∈ m.val
    · have hlt : pre.length < NUM_VICTIMS := by
        rcases (hmem (-1)).1 he with h | ⟨_, h⟩
        · exact absurd h hsent
        · exact h
      have hx1 : x ≠ -1 := fun e => hx (e ▸ he)
      have hx2 : x ∉ pre := fun h => hx ((hmem x).2 (Or.inl h))
      have hnext : next pre x = pre ++ [x] := by
        unfold next
        simp [hx1, hx2, hlt]
      obtain ⟨r, hr⟩ : ∃ r, NUM_VICTIMS - pre.length = r + 1 := ⟨NUM_VICTIMS - pre.length - 1, by omega⟩
      have hval2 : m.val = pre ++ List.replicate (r + 1) (-1) := by rw [hval, Spec.layout, hr]
      have hk : m.read ⟨pre.length, hlt⟩ = -1 := by
        have hget := m.getElem?_val ⟨pre.length, hlt⟩
        rw [hval2, List.getElem?_append_right (le_refl _)] at hget
        simpa using hget.symm
      have hbefore : ∀ j, j < (⟨pre.length, hlt⟩ : Fin NUM_VICTIMS) → m.read j ≠ -1 := by
        intro j hj
        have hj2 : j.val < pre.length := hj
        intro e
        apply hsent
        have hget := m.getElem?_val j
        rw [hval2, List.getElem?_append_left hj2, e] at hget
        exact List.getElem?_mem hget
      rw [updateDetected_of_fresh m x _ hx hk hbefore, hnext]
      refine ⟨?_, by simp; omega, by simp [hsent, Ne.symm hx1]⟩
      rw [Memory.val_write, hval2]
      simp only [set_length_append, Spec.layout, List.length_append, List.length_singleton]
      have : NUM_VICTIMS - (pre.length + 1) = r := by omega
      rw [this]
      simp
    · rw [updateDetected_of_full m x he]
      have hfull : NUM_VICTIMS ≤ pre.length := by
        by_contra hc
        exact he ((hmem (-1)).2 (Or.inr ⟨rfl, by omega⟩))
      have : next pre x = pre := by
        unfold next
        simp [hfull]
      rw [this]
      exact ⟨hval, hlen, hsent⟩

theorem heldAfter_cons (pre : List Int) (hlen : pre.length ≤ NUM_VICTIMS) (x : Int)
    (ids : List Int) : heldAfter pre (x :: ids) = heldAfter (next pre x) ids := by
  unfold heldAfter next
  by_cases hx1 : x = -1
  · simp [hx1]
  · by_cases hx2 : x ∈ pre
    · simp only [hx2, true_or, or_true, if_true, List.filter_cons, hx1, ne_eq,
        not_false_eq_true, decide_True, Spec.firstOccurrences, not_true_eq_false,
        decide_False, Bool.false_eq_true, if_false, List.filter_filter]
      congr 2
      apply List.filter_congr
      intro y _
      by_cases hy : y ∈ pre
      · simp [hy]
      · have : y ≠ x := fun e => hy (e ▸ hx2)
        simp [hy, this]
    · by_cases hfull : NUM_VICTIMS ≤ pre.length
      · have hl : pre.length = NUM_VICTIMS := le_antisymm hlen hfull
        simp only [hfull, or_true, if_true]
        rw [List.take_append_of_le_length (le_of_eq hl.symm),
          List.take_append_of_le_length (le_of_eq hl.symm)]
      · simp only [hx1, hx2, hfull, or_self, if_false, List.filter_cons, ne_eq,
          not_false_eq_true, decide_True, if_true, Spec.firstOccurrences,
          List.filter_filter, List.append_assoc, List.singleton_append]
        congr 3
        apply List.filter_congr
        intro y _
        by_cases hy : y = x
        · simp [hy]
        · simp [hy]

theorem afterUpdates_val : ∀ (ids : List Int) (m : Memory) (pre : List Int), Shape m pre →
    (afterUpdates m ids).val = Spec.layout (heldAfter pre ids)
  | [], m, pre, h => by
    have : heldAfter pre [] = pre := by
      unfold heldAfter
      simp [Spec.firstOccurrences, List.take_of_length_le h.2.1]
    rw [this]
    exact h.1
  | x :: ids, m, pre, h => by
    rw [heldAfter_cons pre h.2.1]
    exact afterUpdates_val ids _ _ (shape_updateDetected m pre x h)

theorem shape_resetTags (m : Memory) : Shape (resetTags m) [] :=
  ⟨resetTags_val m, Nat.zero_le _, List.not_mem_nil _⟩

theorem heldAfter_nil (ids : List Int) : heldAfter [] ids = Spec.firstDistinct ids := by
  unfold heldAfter Spec.firstDistinct
  simp

theorem Spec.mem_firstOccurrences (x : Int) : ∀ (l : List Int),
    x ∈ Spec.firstOccurrences l ↔ x ∈ l
  | [] => by simp [Spec.firstOccurrences]
  | y :: l => by
    have ih := Spec.mem_firstOccurrences x l
    by_cases hxy : x = y
    · simp [Spec.firstOccurrences, hxy]
    · simp [Spec.firstOccurrences, hxy, ih]

theorem Spec.nodup_firstOccurrences : ∀ (l : List Int), (Spec.firstOccurrences l).Nodup
  | [] => List.nodup_nil
  | y :: l => by
    simp only [Spec.firstOccurrences, List.nodup_cons, List.mem_filter]
    exact ⟨fun h => by simp at h, (Spec.nodup_firstOccurrences l).filter _⟩

/-! ## The frame handler -/

theorem processImage_cons (tf : TransformPoint) (d : TagDetection) (ds : List TagDetection)
    (m : Memory) :
    Demo.processImage tf (d :: ds) m =
      ((if (updateDetected m d.id).1 then
          Demo.print_detection tf d ++ [Action.infoNewVictim d.id]
        else [Action.infoNoNewVictim d.id]) ++
          (Demo.processImage tf ds (updateDetected m d.id).2).1,
        (Demo.processImage tf ds (updateDetected m d.id).2).2) := rfl

theorem processImage_nil (tf : TransformPoint) (m : Memory) :
    Demo.processImage tf [] m = ([], m) := rfl

theorem locations_append (xs ys : List Action) :
    Action.locations (xs ++ ys) = Action.locations xs ++ Action.locations ys := by
  induction xs with
  | nil => rfl
  | cons a xs ih => cases a <;> simp [Action.locations, ih]

theorem markers_append (xs ys : List Action) :
    Action.markers (xs ++ ys) = Action.markers xs ++ Action.markers ys := by
  induction xs with
  | nil => rfl
  | cons a xs ih => cases a <;> simp [Action.markers, ih]

/-- What `print_detection` does when the transform lookup returns `out`. -/
theorem print_detection_of_some (tf : TransformPoint) (d : TagDetection) (out : PointStamped)
    (h : tf "map" ⟨"base_footprint", d.translation⟩ = some out) :
    Demo.print_detection tf d =
      [Action.coutId d.id d.hammingDistance,
       Action.infoTransformed d.translation out.point,
       Action.publishLocation ⟨toString d.id, out.point⟩,
       Action.publishMarker (Spec.visualization d.id ⟨out.point.x, out.point.y, 0⟩)] := by
  simp only [Demo.print_detection, h]
  rfl

/-- What `print_detection` does when the transform lookup throws. -/
theorem print_detection_of_none (tf : TransformPoint) (d : TagDetection)
    (h : tf "map" ⟨"base_footprint", d.translation⟩ = none) :
    Demo.print_detection tf d =
      [Action.coutId d.id d.hammingDistance,
       Action.errorTransform,
       Action.publishLocation ⟨toString d.id, ⟨0, 0, 0⟩⟩,
       Action.publishMarker (Spec.visualization d.id ⟨0, 0, 0⟩)] := by
  simp only [Demo.print_detection, h]
  rfl

theorem updateDetected_empty (m : Memory) (a : Int) (ha : a ≠ -1) :
    updateDetected (resetTags m) a = (true, ⟨[a, -1, -1, -1, -1], rfl⟩) := by
  have hm : a ∉ (resetTags m).val := by
    rw [resetTags_val]
    simp [ha]
  have hk : (resetTags m).read 0 = -1 := by
    have := (resetTags m).getElem?_val 0
    rw [resetTags_val] at this
    simpa using this.symm
  rw [updateDetected_of_fresh (resetTags m) a 0 hm hk (fun j hj => absurd hj (by simp))]
  exact congrArg _ (Memory.ext_val (by rw [Memory.val_write, resetTags_val]; rfl))

theorem updateDetected_second (a b : Int) (hab : a ≠ b) (ha : a ≠ -1) (hb : b ≠ -1) :
    updateDetected ⟨[a, -1, -1, -1, -1], rfl⟩ b = (true, ⟨[a, b, -1, -1, -1], rfl⟩) := by
  have hm : b ∉ (⟨[a, -1, -1, -1, -1], rfl⟩ : Memory).val := by
    simp [hb, Ne.symm hab]
  rw [updateDetected_of_fresh _ b 1 hm rfl]
  · rfl
  · intro j hj
    have hj0 : j = 0 := by
      apply Fin.ext
      have : j.val < 1 := hj
      simpa using this
    subst hj0
    exact ha

theorem entries_layout (pre : List Int) (h : (-1 : Int) ∉ pre) :
    (Spec.layout pre).filter (fun v => v ≠ -1) = pre := by
  unfold Spec.layout
  rw [List.filter_append]
  have h1 : pre.filter (fun v => v ≠ -1) = pre := by
    rw [List.filter_eq_self]
    intro a ha
    have : a ≠ -1 := fun e => h (e ▸ ha)
    simpa using this
  have h2 : (List.replicate (NUM_VICTIMS - pre.length) (-1 : Int)).filter (fun v => v ≠ -1) = [] := by
    rw [List.filter_eq_nil_iff]
    intro a ha
    simp [(List.mem_replicate.1 ha).2]
  rw [h1, h2, List.append_nil]

theorem next_extends (pre : List Int) (x : Int) : pre <+: next pre x := by
  unfold next
  split
  · exact List.prefix_refl pre
  · exact List.prefix_append pre [x]

/-- Calls only ever append to the identifiers held. -/
theorem shape_afterUpdates : ∀ (ids : List Int) (m : Memory) (pre : List Int), Shape m pre →
    ∃ held, Shape (afterUpdates m ids) held ∧ pre <+: held
  | [], _, pre, h => ⟨pre, h, List.prefix_refl pre⟩
  | x :: ids, m, pre, h => by
    obtain ⟨held, hs, hp⟩ := shape_afterUpdates ids _ _ (shape_updateDetected m pre x h)
    exact ⟨held, hs, (next_extends pre x).trans hp⟩

theorem entries_of_shape (m : Memory) (pre : List Int) (h : Shape m pre) : m.entries = pre := by
  unfold Memory.entries
  rw [h.1]
  exact entries_layout pre h.2.2

/-- Slots of a list whose kept values are free of duplicates: equal kept values sit at equal indices. -/
theorem index_eq_of_nodup_filter (p : Int → Bool) : ∀ (l : List Int) (i j : Nat)
    (hi : i < l.length) (hj : j < l.length), (l.filter p).Nodup → l[i] = l[j] → p l[i] = true →
    i = j
  | [], _, _, hi, _, _, _, _ => by simp at hi
  | x :: xs, 0, 0, _, _, _, _, _ => rfl
  | x :: xs, 0, j + 1, _, hj, hn, he, hp => by
    exfalso
    have hj2 : j < xs.length := by simpa using hj
    have hpx : p x = true := by simpa using hp
    have hxe : x = xs[j] := by simpa using he
    rw [List.filter_cons_of_pos hpx, List.nodup_cons] at hn
    exact hn.1 (List.mem_filter.2 ⟨hxe ▸ List.getElem_mem _, hpx⟩)
  | x :: xs, i + 1, 0, hi, _, hn, he, hp => by
    exfalso
    have hi2 : i < xs.length := by simpa using hi
    have hxe : xs[i] = x := by simpa using he
    have hpx : p x = true := by
      have : p xs[i] = true := by simpa using hp
      rwa [hxe] at this
    rw [List.filter_cons_of_pos hpx, List.nodup_cons] at hn
    exact hn.1 (List.mem_filter.2 ⟨hxe ▸ List.getElem_mem _, hpx⟩)
  | x :: xs, i + 1, j + 1, hi, hj, hn, he, hp => by
    have hn2 : (xs.filter p).Nodup := by
      by_cases hpx : p x = true
      · rw [List.filter_cons_of_pos hpx, List.nodup_cons] at hn
        exact hn.2
      · rwa [List.filter_cons_of_neg hpx] at hn
    have := index_eq_of_nodup_filter p xs i j (by simpa using hi) (by simpa using hj) hn2
      (by simpa using he) (by simpa using hp)
    omega

theorem slot_eq_of_nodup_entries (m : Memory) (h : m.entries.Nodup) (i j : Fin NUM_VICTIMS)
    (he : m.read i = m.read j) (hne : m.read i ≠ -1) : i = j := by
  have hi : i.val < m.val.length := by rw [m.property]; exact i.isLt
  have hj : j.val < m.val.length := by rw [m.property]; exact j.isLt
  apply Fin.ext
  refine index_eq_of_nodup_filter (fun v => v ≠ -1) m.val i.val j.val hi hj h he ?_
  have : m.val[i.val] ≠ -1 := hne
  simpa using this

/-- The transform-failure path in general: for a first sighting whose transform
lookup throws, the handler still publishes one located-object event and one
visualization event, at the position of the default-constructed
`victim_point`, and the memory holds the identifier afterwards. -/
theorem processImage_of_transform_failure (tf : TransformPoint) (m : Memory)
    (d : TagDetection) (hnew : (updateDetected m d.id).1 = true)
    (htf : tf "map" ⟨"base_footprint", d.translation⟩ = none) :
    Action.locations (Demo.processImage tf [d] m).1 = [⟨toString d.id, ⟨0, 0, 0⟩⟩] ∧
    Action.markers (Demo.processImage tf [d] m).1 = [Spec.visualization d.id ⟨0, 0, 0⟩] ∧
    d.id ∈ (Demo.processImage tf [d] m).2.val := by
  simp only [processImage_cons, processImage_nil, hnew, if_true,
    print_detection_of_none tf d htf]
  exact ⟨rfl, rfl, mem_of_updateDetected_true m d.id hnew⟩

/-! # The claims -/

/-- C1: `updateDetected(id)` behaves as `record(id)`.  It equals the operation
`Spec.record`; spelled out: if `id` already occupies some slot it returns false
and leaves the memory unchanged; otherwise, if some slot is empty, it returns
true and the new memory differs from the old one only in the lowest-index empty
slot `k`, which now holds `id`; otherwise it returns false and leaves the memory
unchanged. -/
theorem updateDetected_behaves_as_record (m : Memory) (id : Int) :
    updateDetected m id = Spec.record m id ∧
    ((∃ i, m.read i = id) → updateDetected m id = (false, m)) ∧
    ((∀ i, m.read i ≠ id) → (∃ i, m.read i = -1) →
      ∃ k, m.read k = -1 ∧ (∀ j, j < k → m.read j ≠ -1) ∧
        (updateDetected m id).1 = true ∧ (updateDetected m id).2.read k = id ∧
        ∀ j, j ≠ k → (updateDetected m id).2.read j = m.read j) ∧
    ((∀ i, m.read i ≠ id) → (∀ i, m.read i ≠ -1) → updateDetected m id = (false, m)) := by
  refine ⟨updateDetected_eq_record m id, ?_, ?_, ?_⟩
  · intro h
    exact updateDetected_of_mem m id ((m.mem_iff_read id).2 h)
  · intro hid he
    have hid2 : id ∉ m.val := fun h => by
      obtain ⟨i, hi⟩ := (m.mem_iff_read id).1 h
      exact hid i hi
    obtain ⟨k, hk, hlt⟩ := exists_firstEmpty m ((m.mem_iff_read (-1)).2 he)
    refine ⟨k, hk, hlt, ?_⟩
    rw [updateDetected_of_fresh m id k hid2 hk hlt]
    exact ⟨rfl, Memory.read_write_same m k id, fun j hj => Memory.read_write_other m hj id⟩
  · intro _ he
    refine updateDetected_of_full m id (fun h => ?_)
    obtain ⟨i, hi⟩ := (m.mem_iff_read (-1)).1 h
    exact he i hi

/-- Witness of C1: the three cases on the memories `[7, -1, 3, -1, 9]` (identifiers
`3` and `4`) and `[1, 2, 3, 4, 5]` (identifier `6`). -/
theorem updateDetected_behaves_as_record_witness :
    ((∃ i, partlyFilled.read i = 3) ∧ updateDetected partlyFilled 3 = (false, partlyFilled)) ∧
    (((∀ i, partlyFilled.read i ≠ 4) ∧ (∃ i, partlyFilled.read i = -1)) ∧
      ∃ k, partlyFilled.read k = -1 ∧ (∀ j, j < k → partlyFilled.read j ≠ -1) ∧
        (updateDetected partlyFilled 4).1 = true ∧ (updateDetected partlyFilled 4).2.read k = 4 ∧
        ∀ j, j ≠ k → (updateDetected partlyFilled 4).2.read j = partlyFilled.read j) ∧
    (((∀ i, saturated.read i ≠ 6) ∧ (∀ i, saturated.read i ≠ -1)) ∧
      updateDetected saturated 6 = (false, saturated)) :=
  ⟨⟨by decide, (updateDetected_behaves_as_record partlyFilled 3).2.1 (by decide)⟩,
   ⟨⟨by decide, by decide⟩,
    (updateDetected_behaves_as_record partlyFilled 4).2.2.1 (by decide) (by decide)⟩,
   ⟨⟨by decide, by decide⟩,
    (updateDetected_behaves_as_record saturated 6).2.2.2 (by decide) (by decide)⟩⟩

/-- C3 (as amended): after `resetTags()`, `updateDetected(id)` returns true for
every identifier `id` other than the empty-slot value `-1`, whatever the memory
was before the reset (so also for every such `id` recorded before the reset). -/
theorem updateDetected_after_resetTags (m : Memory) (id : Int) (h : id ≠ -1) :
    (updateDetected (resetTags m) id).1 = true := by
  rw [updateDetected_empty m id h]

/-- Witness of C3 (as amended): the identifier `3`, recorded before the reset. -/
theorem updateDetected_after_resetTags_witness :
    (3 : Int) ≠ -1 ∧ (3 : Int) ∈ partlyFilled.val ∧
      (updateDetected (resetTags partlyFilled) 3).1 = true :=
  ⟨by decide, by decide, updateDetected_after_resetTags partlyFilled 3 (by decide)⟩

/-- Counterexample to C3 as stated: after `resetTags()`, `updateDetected(-1)` returns false. -/
theorem updateDetected_after_resetTags_sentinel :
    ¬ ((updateDetected (resetTags partlyFilled) (-1)).1 = true) := by
  decide

/-- C4: in every memory reached from the one produced by `resetTags()` by a finite
sequence of `updateDetected(id)` and `resetTags()` calls, at most `NUM_VICTIMS`
entries differ from `-1`, these entries are free of duplicates, and so no
identifier other than `-1` occupies two different slots. -/
theorem reachable_no_duplicates (m0 : Memory) (cs : List Call) :
    (runCalls (resetTags m0) cs).entries.length ≤ NUM_VICTIMS ∧
    (runCalls (resetTags m0) cs).entries.Nodup ∧
    ∀ i j, i ≠ j → (runCalls (resetTags m0) cs).read i ≠ -1 →
      (runCalls (resetTags m0) cs).read i ≠ (runCalls (resetTags m0) cs).read j := by
  have hn : (runCalls (resetTags m0) cs).entries.Nodup :=
    nodup_entries_runCalls cs _ (by rw [resetTags_entries]; exact List.nodup_nil)
  refine ⟨?_, hn, fun i j hij hne he => hij (slot_eq_of_nodup_entries _ hn i j he hne)⟩
  have := List.length_filter_le (fun v : Int => decide (v ≠ -1)) (runCalls (resetTags m0) cs).val
  rw [(runCalls (resetTags m0) cs).property] at this
  exact this

/-- Witness of C4: the calls `updateDetected(3)`, `updateDetected(3)`, `resetTags()`,
`updateDetected(4)`, `updateDetected(3)`, which leave `[4, 3, -1, -1, -1]`; slots `0` and `1`. -/
theorem reachable_no_duplicates_witness :
    ((0 : Fin NUM_VICTIMS) ≠ 1 ∧
      (runCalls (resetTags partlyFilled)
        [Call.update 3, Call.update 3, Call.clear, Call.update 4, Call.update 3]).read 0 ≠ -1) ∧
    (runCalls (resetTags partlyFilled)
        [Call.update 3, Call.update 3, Call.clear, Call.update 4, Call.update 3]).read 0 ≠
      (runCalls (resetTags partlyFilled)
        [Call.update 3, Call.update 3, Call.clear, Call.update 4, Call.update 3]).read 1 :=
  ⟨⟨by decide, by decide⟩,
   (reachable_no_duplicates partlyFilled
      [Call.update 3, Call.update 3, Call.clear, Call.update 4, Call.update 3]).2.2 0 1
      (by decide) (by decide)⟩

/-- C6: the reset service called with `resetFlag = false` leaves the memory (and
the response) as they were and returns true. -/
theorem reset_false_is_noop (res : ResetResponse) (m : Memory) :
    (reset ⟨false⟩ res m).memory = m ∧ (reset ⟨false⟩ res m).ret = true ∧
      (reset ⟨false⟩ res m).res = res :=
  ⟨rfl, rfl, rfl⟩

/-- C7: in a sequence `ids` of `updateDetected` calls from any memory `m`, at most
one call for `id` returns true; when the call for `id` after the calls `pre`
returned true, the call for `id` after any further calls `mid` returns false;
and when every slot is occupied (after the calls `sat`), the call for an
identifier `novel` that is in no slot returns false and changes nothing. -/
theorem updateDetected_true_once (m : Memory) (ids pre mid sat : List Int) (id novel : Int) :
    (ids.zip (returnsOf m ids)).count (id, true) ≤ 1 ∧
    ((updateDetected (afterUpdates m pre) id).1 = true →
      (updateDetected (afterUpdates m (pre ++ id :: mid)) id).1 = false) ∧
    ((-1 : Int) ∉ (afterUpdates m sat).val → novel ∉ (afterUpdates m sat).val →
      updateDetected (afterUpdates m sat) novel = (false, afterUpdates m sat)) := by
  refine ⟨count_true_le_one id ids m, ?_, fun h _ => updateDetected_of_full _ novel h⟩
  intro ht
  have hne : id ≠ -1 := fun e =>
    ((updateDetected_true_iff _ id).1 ht).1 (e ▸ ((updateDetected_true_iff _ id).1 ht).2)
  have hmem : id ∈ (afterUpdates m (pre ++ id :: mid)).val := by
    rw [afterUpdates_append]
    exact mem_afterUpdates id hne mid _ (mem_of_updateDetected_true _ id ht)
  rw [updateDetected_of_mem _ id hmem]

/-- Witness of C7: from the reset memory, the calls `1, 2, 1, 3, 1`; identifier `5`
after `1, 2, 3, 4` and again after `1, 6`; identifier `6` after `1, 2, 3, 4, 5`. -/
theorem updateDetected_true_once_witness :
    returnsOf (resetTags partlyFilled) [1, 2, 1, 3, 1] = [true, true, false, true, false] ∧
    ((updateDetected (afterUpdates (resetTags partlyFilled) [1, 2, 3, 4]) 5).1 = true ∧
      (updateDetected (afterUpdates (resetTags partlyFilled) ([1, 2, 3, 4] ++ 5 :: [1, 6])) 5).1
        = false) ∧
    (((-1 : Int) ∉ (afterUpdates (resetTags partlyFilled) [1, 2, 3, 4, 5]).val ∧
      (6 : Int) ∉ (afterUpdates (resetTags partlyFilled) [1, 2, 3, 4, 5]).val) ∧
      updateDetected (afterUpdates (resetTags partlyFilled) [1, 2, 3, 4, 5]) 6 =
        (false, afterUpdates (resetTags partlyFilled) [1, 2, 3, 4, 5])) :=
  ⟨by decide,
   ⟨by decide,
    (updateDetected_true_once (resetTags partlyFilled) [1, 2, 1, 3, 1] [1, 2, 3, 4] [1, 6]
      [1, 2, 3, 4, 5] 5 6).2.1 (by decide)⟩,
   ⟨⟨by decide, by decide⟩,
    (updateDetected_true_once (resetTags partlyFilled) [1, 2, 1, 3, 1] [1, 2, 3, 4] [1, 6]
      [1, 2, 3, 4, 5] 5 6).2.2 (by decide) (by decide)⟩⟩

/-- C10: after the calls `updateDetected(id)` for `id` in `ids`, from the memory
produced by `resetTags()`, the slots hold the first `NUM_VICTIMS` distinct
identifiers of `ids` other than `-1`, in the order of first occurrence, from
slot `0` on, and `-1` in every remaining slot; and the entries held after `ids`
are a prefix of the entries held after any further calls `more` (none is ever
evicted or overwritten). -/
theorem afterUpdates_first_distinct (m0 : Memory) (ids more : List Int) :
    (afterUpdates (resetTags m0) ids).val = Spec.layout (Spec.firstDistinct ids) ∧
    (afterUpdates (resetTags m0) ids).entries <+:
      (afterUpdates (resetTags m0) (ids ++ more)).entries := by
  constructor
  · rw [afterUpdates_val ids _ [] (shape_resetTags m0), heldAfter_nil]
  · obtain ⟨held, hs, _⟩ := shape_afterUpdates ids _ [] (shape_resetTags m0)
    obtain ⟨held2, hs2, hp⟩ := shape_afterUpdates more _ held hs
    rw [afterUpdates_append, entries_of_shape _ _ hs, entries_of_shape _ _ hs2]
    exact hp

/-- C8: a frame whose markers have the identifiers `A`, `B`, `A` (`A ≠ B`, neither
`-1`), processed from the memory produced by `resetTags()`: `print_detection`
runs for the first marker and for the second, and not for the third, whatever
the transform lookups return; so one located-object event and one
visualization event are emitted for `A`, then one of each for `B`. -/
theorem processImage_repeated_marker (tf : TransformPoint) (m0 : Memory)
    (dA dB dA2 : TagDetection) (hAB : dA.id ≠ dB.id) (hA : dA.id ≠ -1) (hB : dB.id ≠ -1)
    (hA2 : dA2.id = dA.id) :
    (Demo.processImage tf [dA, dB, dA2] (resetTags m0)).1 =
      (Demo.print_detection tf dA ++ [Action.infoNewVictim dA.id]) ++
      (Demo.print_detection tf dB ++ [Action.infoNewVictim dB.id]) ++
      [Action.infoNoNewVictim dA.id] ∧
    (Action.locations (Demo.processImage tf [dA, dB, dA2] (resetTags m0)).1).map
      (fun l => l.frame_id) = [toString dA.id, toString dB.id] ∧
    (Action.markers (Demo.processImage tf [dA, dB, dA2] (resetTags m0)).1).map
      (fun k => k.id) = [dA.id, dB.id] := by
  have h3 : updateDetected ⟨[dA.id, dB.id, -1, -1, -1], rfl⟩ dA.id =
      (false, ⟨[dA.id, dB.id, -1, -1, -1], rfl⟩) :=
    updateDetected_of_mem _ _ (by simp)
  have htrace : (Demo.processImage tf [dA, dB, dA2] (resetTags m0)).1 =
      (Demo.print_detection tf dA ++ [Action.infoNewVictim dA.id]) ++
      (Demo.print_detection tf dB ++ [Action.infoNewVictim dB.id]) ++
      [Action.infoNoNewVictim dA.id] := by
    simp only [processImage_cons, processImage_nil, updateDetected_empty m0 dA.id hA,
      updateDetected_second dA.id dB.id hAB hA hB, h3, hA2]
    simp
  refine ⟨htrace, ?_, ?_⟩
  · rw [htrace]
    cases hx : tf "map" ⟨"base_footprint", dA.translation⟩ <;>
    cases hy : tf "map" ⟨"base_footprint", dB.translation⟩ <;>
    simp [print_detection_of_some, print_detection_of_none, hx, hy, Action.locations]
  · rw [htrace]
    cases hx : tf "map" ⟨"base_footprint", dA.translation⟩ <;>
    cases hy : tf "map" ⟨"base_footprint", dB.translation⟩ <;>
    simp [print_detection_of_some, print_detection_of_none, hx, hy, Action.markers,
      Spec.visualization]

/-- Witness of C8: the identifiers `7`, `8`, `7`, every transform lookup returning `(4, 5, 6)`. -/
theorem processImage_repeated_marker_witness :
    ((7 : Int) ≠ 8 ∧ (7 : Int) ≠ -1 ∧ (8 : Int) ≠ -1) ∧
    (Action.locations (Demo.processImage (fun _ _ => some ⟨"map", ⟨4, 5, 6⟩⟩)
        [⟨7, 0, ⟨1, 2, 3⟩⟩, ⟨8, 0, ⟨1, 2, 3⟩⟩, ⟨7, 1, ⟨3, 2, 1⟩⟩] (resetTags partlyFilled)).1).map
      (fun l => l.frame_id) = ["7", "8"] :=
  ⟨⟨by decide, by decide, by decide⟩,
   (processImage_repeated_marker (fun _ _ => some ⟨"map", ⟨4, 5, 6⟩⟩) partlyFilled
      ⟨7, 0, ⟨1, 2, 3⟩⟩ ⟨8, 0, ⟨1, 2, 3⟩⟩ ⟨7, 1, ⟨3, 2, 1⟩⟩
      (by decide) (by decide) (by decide) rfl).2.1⟩

/-- C9: when no slot is empty and the identifier `C` of the only marker of a frame
is in no slot, processing the frame emits no located-object event and no
visualization event (only the notice "No new victim detected"), leaves the
memory unchanged, and `C` is still in no slot (`seen(C)` is false). -/
theorem processImage_saturated (tf : TransformPoint) (m : Memory) (d : TagDetection)
    (hfull : ∀ i, m.read i ≠ -1) (hnew : ∀ i, m.read i ≠ d.id) :
    (Demo.processImage tf [d] m).1 = [Action.infoNoNewVictim d.id] ∧
    Action.locations (Demo.processImage tf [d] m).1 = [] ∧
    Action.markers (Demo.processImage tf [d] m).1 = [] ∧
    (Demo.processImage tf [d] m).2 = m ∧
    Spec.seen (Demo.processImage tf [d] m).2 d.id = false := by
  have hf : (-1 : Int) ∉ m.val := fun h => by
    obtain ⟨i, hi⟩ := (m.mem_iff_read (-1)).1 h
    exact hfull i hi
  have hn : d.id ∉ m.val := fun h => by
    obtain ⟨i, hi⟩ := (m.mem_iff_read d.id).1 h
    exact hnew i hi
  have hrun : Demo.processImage tf [d] m = ([Action.infoNoNewVictim d.id], m) := by
    simp [processImage_cons, processImage_nil, updateDetected_of_full m d.id hf]
  rw [hrun]
  exact ⟨rfl, rfl, rfl, rfl, by simp [Spec.seen, hn]⟩

/-- Witness of C9: the memory `[1, 2, 3, 4, 5]` and a marker with identifier `6`. -/
theorem processImage_saturated_witness :
    ((∀ i, saturated.read i ≠ -1) ∧ (∀ i, saturated.read i ≠ 6) ∧ saturated.val.Nodup) ∧
    (Demo.processImage (fun _ _ => some ⟨"map", ⟨4, 5, 6⟩⟩) [⟨6, 0, ⟨1, 2, 3⟩⟩] saturated).2
      = saturated :=
  ⟨⟨by decide, by decide, by decide⟩,
   (processImage_saturated (fun _ _ => some ⟨"map", ⟨4, 5, 6⟩⟩) saturated ⟨6, 0, ⟨1, 2, 3⟩⟩
      (by decide) (by decide)).2.2.2.1⟩

/-- C5 (as amended): for a marker that is a first sighting and whose transform
lookup returns the map-frame point `p`, the handler emits exactly one
located-object event, labelled with the decimal string of the marker id and
carrying the position `(p.x, p.y, p.z)`, and exactly one visualization event,
carrying the marker id and the position `(p.x, p.y, 0)`. -/
theorem processImage_first_sighting (tf : TransformPoint) (m : Memory) (d : TagDetection)
    (p : PointStamped) (hnew : (updateDetected m d.id).1 = true)
    (htf : tf "map" ⟨"base_footprint", d.translation⟩ = some p) :
    Action.locations (Demo.processImage tf [d] m).1 =
      [⟨toString d.id, ⟨p.point.x, p.point.y, p.point.z⟩⟩] ∧
    Action.markers (Demo.processImage tf [d] m).1 =
      [Spec.visualization d.id ⟨p.point.x, p.point.y, 0⟩] := by
  simp only [processImage_cons, processImage_nil, hnew, if_true,
    print_detection_of_some tf d p htf]
  exact ⟨rfl, rfl⟩

/-- Witness of C5 (as amended): identifier `7` on the reset memory, the lookup returning `(4, 5, 6)`. -/
theorem processImage_first_sighting_witness :
    (updateDetected (resetTags partlyFilled) 7).1 = true ∧
    Action.locations (Demo.processImage (fun _ _ => some ⟨"map", ⟨4, 5, 6⟩⟩)
        [⟨7, 0, ⟨1, 2, 3⟩⟩] (resetTags partlyFilled)).1 = [⟨"7", ⟨4, 5, 6⟩⟩] ∧
    Action.markers (Demo.processImage (fun _ _ => some ⟨"map", ⟨4, 5, 6⟩⟩)
        [⟨7, 0, ⟨1, 2, 3⟩⟩] (resetTags partlyFilled)).1 = [Spec.visualization 7 ⟨4, 5, 0⟩] :=
  ⟨by decide,
   processImage_first_sighting (fun _ _ => some ⟨"map", ⟨4, 5, 6⟩⟩) (resetTags partlyFilled)
     ⟨7, 0, ⟨1, 2, 3⟩⟩ ⟨"map", ⟨4, 5, 6⟩⟩ (by decide) rfl⟩

/-- Counterexample to C5 as stated: identifier `7` is a first sighting, the lookup
returns `(4, 5, 6)`, and the one visualization event carries `(4, 5, 0)`, not `(4, 5, 6)`. -/
theorem processImage_marker_on_ground :
    (updateDetected (resetTags partlyFilled) 7).1 = true ∧
    (Action.markers (Demo.processImage (fun _ _ => some ⟨"map", ⟨4, 5, 6⟩⟩)
        [⟨7, 0, ⟨1, 2, 3⟩⟩] (resetTags partlyFilled)).1).map (fun k => k.position) =
      [⟨4, 5, 0⟩] ∧
    ¬ ((Action.markers (Demo.processImage (fun _ _ => some ⟨"map", ⟨4, 5, 6⟩⟩)
        [⟨7, 0, ⟨1, 2, 3⟩⟩] (resetTags partlyFilled)).1).map (fun k => k.position) =
      [⟨4, 5, 6⟩]) := by
  decide

/-- C2 (the code at the failing input): identifier `7` is a first sighting and the
transform lookup throws; the handler logs the error and still publishes one
located-object event and one visualization event, both at `(0, 0, 0)`; the
memory holds `7` afterwards. -/
theorem processImage_transform_failure :
    (updateDetected (resetTags partlyFilled) 7).1 = true ∧
    (Demo.processImage (fun _ _ => none) [⟨7, 0, ⟨1, 2, 3⟩⟩] (resetTags partlyFilled)).1 =
      [Action.coutId 7 0, Action.errorTransform,
       Action.publishLocation ⟨"7", ⟨0, 0, 0⟩⟩,
       Action.publishMarker (Spec.visualization 7 ⟨0, 0, 0⟩),
       Action.infoNewVictim 7] ∧
    (7 : Int) ∈ (Demo.processImage (fun _ _ => none) [⟨7, 0, ⟨1, 2, 3⟩⟩]
      (resetTags partlyFilled)).2.val :=
  ⟨by decide, rfl, by decide⟩

end VictimDetection
